import Mathlib

/-!
Verification of the artifact-resolution and caching installer of `pvr`
(`pvr/installer.py`, driven from `pvr/cli.py`).

The Python source is shallowly embedded: pure helpers become Lean
functions, the stateful cache/network/process code becomes explicit
state passing over a `World` record, and Python exceptions become
`Except` results.  External collaborators (the stdlib URL joiner, the
HTML tokenizer, the process runner and the network) are passed in as
function parameters; the version grammar of the third-party `packaging`
library is modelled from the specification's description of it.
-/

namespace Pvr

/-! ### Three-way comparison helpers

`packaging.version` orders parsed versions by comparing key tuples
lexicographically.  We build the comparator from a primitive `Nat`
comparison and prove the laws (reflexivity, swap symmetry, transitivity
of `lt`, and congruence of `eq`) needed to reason about the stable
descending sort in `PipInstaller.find`.
-/

/-- Three-way comparison on naturals. -/
def cmpN (a b : Nat) : Ordering :=
  if a < b then .lt else if b < a then .gt else .eq

theorem cmpN_lt_iff (a b : Nat) : cmpN a b = .lt ↔ a < b := by
  unfold cmpN
  split <;> rename_i h1
  · simp [h1]
  · split <;> simp <;> omega

theorem cmpN_gt_iff (a b : Nat) : cmpN a b = .gt ↔ b < a := by
  unfold cmpN
  split <;> rename_i h1
  · simp; omega
  · split <;> simp <;> omega

theorem cmpN_eq_iff (a b : Nat) : cmpN a b = .eq ↔ a = b := by
  unfold cmpN
  split <;> rename_i h1
  · simp; omega
  · split <;> simp <;> omega

/-- The laws a comparator must satisfy for sorting against it to make
sense. -/
structure LawfulCmp {α : Type} (cmp : α → α → Ordering) : Prop where
  refl : ∀ a, cmp a a = .eq
  swap : ∀ a b, (cmp a b).swap = cmp b a
  lt_trans : ∀ a b c, cmp a b = .lt → cmp b c = .lt → cmp a c = .lt
  eq_left : ∀ a b c, cmp a b = .eq → cmp a c = cmp b c

theorem LawfulCmp.eq_right {α : Type} {cmp : α → α → Ordering}
    (h : LawfulCmp cmp) {a b : α} (c : α) (hab : cmp a b = .eq) :
    cmp c a = cmp c b := by
  rw [← h.swap a c, ← h.swap b c, h.eq_left a b c hab]

theorem then_eq (o : Ordering) : Ordering.eq.then o = o := rfl

theorem then_lt (o : Ordering) : Ordering.lt.then o = .lt := rfl

theorem then_gt (o : Ordering) : Ordering.gt.then o = .gt := rfl

theorem LawfulCmp.gt_iff {α : Type} {cmp : α → α → Ordering}
    (h : LawfulCmp cmp) (a b : α) : cmp a b = .gt ↔ cmp b a = .lt := by
  rw [← h.swap b a]
  rcases cmp b a <;> simp [Ordering.swap]

theorem cmpN_lawful : LawfulCmp cmpN := by
  constructor
  · intro a; rw [cmpN_eq_iff]
  · intro a b
    rcases h : cmpN a b with _ | _ | _
    · rw [cmpN_lt_iff] at h
      have hba : cmpN b a = .gt := by rw [cmpN_gt_iff]; exact h
      rw [hba]; rfl
    · rw [cmpN_eq_iff] at h
      have hba : cmpN b a = .eq := by rw [cmpN_eq_iff]; omega
      rw [hba]; rfl
    · rw [cmpN_gt_iff] at h
      have hba : cmpN b a = .lt := by rw [cmpN_lt_iff]; exact h
      rw [hba]; rfl
  · intro a b c h1 h2
    rw [cmpN_lt_iff] at *
    omega
  · intro a b c h
    rw [cmpN_eq_iff] at h
    subst h; rfl

/-- `Ordering.then` of two lawful comparators is lawful (lexicographic
composition). -/
theorem LawfulCmp.comp {α : Type} {f g : α → α → Ordering}
    (hf : LawfulCmp f) (hg : LawfulCmp g) :
    LawfulCmp (fun a b => (f a b).then (g a b)) := by
  constructor
  · intro a; simp [hf.refl, hg.refl, Ordering.then]
  · intro a b
    rcases h : f a b with _ | _ | _ <;>
      rw [← hf.swap a b, h] <;>
      simp [Ordering.then, Ordering.swap, ← hg.swap a b]
  · intro a b c h1 h2
    simp only [Ordering.then] at *
    rcases hab : f a b with _ | _ | _ <;> rw [hab] at h1
    · -- f a b = lt
      rcases hbc : f b c with _ | _ | _ <;> rw [hbc] at h2
      · rw [hf.lt_trans a b c hab hbc]
      · rw [hf.eq_right a hbc] at hab
        rw [hab]
      · exact absurd h2 (by simp)
    · -- f a b = eq
      rcases hbc : f b c with _ | _ | _ <;> rw [hbc] at h2
      · rw [hf.eq_left a b c hab, hbc]
      · have hac : f a c = .eq := by rw [hf.eq_left a b c hab, hbc]
        rw [hac]
        exact hg.lt_trans a b c h1 h2
      · exact absurd h2 (by simp)
    · exact absurd h1 (by simp)
  · intro a b c h
    simp only [Ordering.then] at *
    rcases hab : f a b with _ | _ | _ <;> rw [hab] at h
    · exact absurd h (by simp)
    · rw [hf.eq_left a b c hab, hg.eq_left a b c h]
    · exact absurd h (by simp)

/-! ### Version model

Modelled from the spec: `packaging.version.parse` and the ordering of
parsed versions live in the third-party `packaging` library (pinned
`packaging>=14.2` in `setup.py`), whose code is not part of this
repository.  The spec describes the grammar as "a semantic/PEP-440-style
version grammar (supporting release segments, pre-release, post-release
... qualifiers, with a defined total ordering: release numbers compare
numerically, pre-release < release < post-release for otherwise-equal
release numbers)".  We model exactly that: a dotted numeric release,
an optional pre-release qualifier (`a`/`b`/`rc` plus a number), an
optional `.post` qualifier; anything else fails to parse.  Ordering
compares release segments numerically with trailing zeros ignored
(so `1.0` and `1.0.0` are equal), then pre-release before plain release
before post-release. -/

/-- A parsed PEP-440-style version. -/
structure PyVersion where
  release : List Nat
  pre : Option (Nat × Nat)
  post : Option Nat
  deriving Repr, DecidableEq

/-- Drop trailing zero segments of a release tuple, as the version
ordering treats `1.0` and `1.0.0` as equal. -/
def stripZeros (l : List Nat) : List Nat :=
  (l.reverse.dropWhile (· = 0)).reverse

/-- Plain lexicographic comparison of segment lists. -/
def cmpList : List Nat → List Nat → Ordering
  | [], [] => .eq
  | [], _ :: _ => .lt
  | _ :: _, [] => .gt
  | a :: as, b :: bs => (cmpN a b).then (cmpList as bs)

/-- Compare release tuples numerically, ignoring trailing zeros. -/
def cmpRel (a b : List Nat) : Ordering :=
  cmpList (stripZeros a) (stripZeros b)

/-- Compare pre-release qualifiers: any pre-release sorts before the
plain release (`none`). -/
def cmpPre : Option (Nat × Nat) → Option (Nat × Nat) → Ordering
  | none, none => .eq
  | some _, none => .lt
  | none, some _ => .gt
  | some (p, n), some (q, m) => (cmpN p q).then (cmpN n m)

/-- Compare post-release qualifiers: a post-release sorts after the
plain release (`none`). -/
def cmpPost : Option Nat → Option Nat → Ordering
  | none, none => .eq
  | some _, none => .gt
  | none, some _ => .lt
  | some n, some m => cmpN n m

/-- The total ordering on parsed versions. -/
def cmpVersion (v w : PyVersion) : Ordering :=
  (cmpRel v.release w.release).then
    ((cmpPre v.pre w.pre).then (cmpPost v.post w.post))

theorem cmpList_eq_iff : ∀ a b : List Nat, cmpList a b = .eq ↔ a = b := by
  intro a
  induction a with
  | nil => intro b; cases b <;> simp [cmpList]
  | cons x xs ih =>
    intro b
    cases b with
    | nil => simp [cmpList]
    | cons y ys =>
      simp only [cmpList, Ordering.then, List.cons.injEq]
      rcases h : cmpN x y with _ | _ | _
      · rw [cmpN_lt_iff] at h
        constructor
        · intro h'; exact absurd h' (by simp)
        · rintro ⟨rfl, rfl⟩; exact absurd h (lt_irrefl x)
      · rw [cmpN_eq_iff] at h
        subst h
        simp [ih]
      · rw [cmpN_gt_iff] at h
        constructor
        · intro h'; exact absurd h' (by simp)
        · rintro ⟨rfl, rfl⟩; exact absurd h (lt_irrefl x)

theorem cmpList_lawful : LawfulCmp cmpList := by
  constructor
  · intro a
    rw [cmpList_eq_iff]
  · intro a
    induction a with
    | nil => intro b; cases b <;> rfl
    | cons x xs ih =>
      intro b
      cases b with
      | nil => rfl
      | cons y ys =>
        simp only [cmpList]
        rcases h : cmpN x y with _ | _ | _ <;>
          rw [← cmpN_lawful.swap x y, h] <;>
          simp [Ordering.then, Ordering.swap, ← ih]
  · intro a
    induction a with
    | nil =>
      rintro (_ | ⟨y, ys⟩) (_ | ⟨z, zs⟩) h1 h2 <;> simp_all [cmpList]
    | cons x xs ih =>
      intro b c h1 h2
      cases b with
      | nil => cases c <;> simp_all [cmpList]
      | cons y ys =>
        cases c with
        | nil => simp_all [cmpList]
        | cons z zs =>
          simp only [cmpList] at h1 h2 ⊢
          rcases hxy : cmpN x y with _ | _ | _ <;> rw [hxy] at h1
          · rcases hyz : cmpN y z with _ | _ | _ <;> rw [hyz] at h2
            · rw [cmpN_lawful.lt_trans x y z hxy hyz, then_lt]
            · rw [cmpN_lawful.eq_right x hyz] at hxy
              rw [hxy, then_lt]
            · rw [then_gt] at h2; exact absurd h2 (by simp)
          · rw [then_eq] at h1
            rw [cmpN_eq_iff] at hxy
            subst hxy
            rcases hyz : cmpN x z with _ | _ | _ <;> rw [hyz] at h2
            · rw [then_lt]
            · rw [then_eq] at h2
              rw [then_eq]
              exact ih ys zs h1 h2
            · rw [then_gt] at h2; exact absurd h2 (by simp)
          · rw [then_gt] at h1; exact absurd h1 (by simp)
  · intro a b c h
    rw [cmpList_eq_iff] at h
    subst h; rfl

theorem cmpRel_lawful : LawfulCmp cmpRel := by
  constructor
  · intro a; exact cmpList_lawful.refl _
  · intro a b; exact cmpList_lawful.swap _ _
  · intro a b c h1 h2; exact cmpList_lawful.lt_trans _ _ _ h1 h2
  · intro a b c h; exact cmpList_lawful.eq_left _ _ _ h

/-- Precomposing a lawful comparator with a key function keeps it
lawful. -/
theorem LawfulCmp.precomp {α β : Type} {cmp : α → α → Ordering}
    (h : LawfulCmp cmp) (k : β → α) : LawfulCmp (fun x y => cmp (k x) (k y)) :=
  ⟨fun a => h.refl _, fun a b => h.swap _ _,
    fun a b c h1 h2 => h.lt_trans _ _ _ h1 h2,
    fun a b c h1 => h.eq_left _ _ _ h1⟩

/-- A comparator pointwise equal to a lawful one is lawful. -/
theorem LawfulCmp.of_eq {α : Type} {f g : α → α → Ordering}
    (h : LawfulCmp f) (e : ∀ a b, g a b = f a b) : LawfulCmp g := by
  constructor
  · intro a; rw [e, h.refl]
  · intro a b; rw [e, e, h.swap]
  · intro a b c h1 h2
    rw [e] at h1 h2 ⊢
    exact h.lt_trans _ _ _ h1 h2
  · intro a b c h1
    rw [e] at h1
    rw [e, e]
    exact h.eq_left _ _ _ h1

/-- Key embedding of pre-release qualifiers into triples. -/
def preKey : Option (Nat × Nat) → Nat × Nat × Nat
  | none => (1, 0, 0)
  | some (p, n) => (0, p, n)

/-- Key embedding of post-release qualifiers into pairs. -/
def postKey : Option Nat → Nat × Nat
  | none => (0, 0)
  | some n => (1, n)

theorem cmpNN_lawful :
    LawfulCmp (fun a b : Nat × Nat => (cmpN a.1 b.1).then (cmpN a.2 b.2)) :=
  LawfulCmp.comp (cmpN_lawful.precomp Prod.fst) (cmpN_lawful.precomp Prod.snd)

theorem cmpNNN_lawful :
    LawfulCmp (fun a b : Nat × Nat × Nat =>
      (cmpN a.1 b.1).then ((cmpN a.2.1 b.2.1).then (cmpN a.2.2 b.2.2))) :=
  LawfulCmp.comp (cmpN_lawful.precomp Prod.fst)
    (LawfulCmp.comp (cmpN_lawful.precomp fun a => a.2.1)
      (cmpN_lawful.precomp fun a => a.2.2))

theorem cmpPre_lawful : LawfulCmp cmpPre :=
  LawfulCmp.of_eq (cmpNNN_lawful.precomp preKey)
    (by rintro (_ | ⟨p, n⟩) (_ | ⟨q, m⟩) <;> rfl)

theorem cmpPost_lawful : LawfulCmp cmpPost :=
  LawfulCmp.of_eq (cmpNN_lawful.precomp postKey)
    (by rintro (_ | n) (_ | m) <;> rfl)

theorem cmpVersion_lawful : LawfulCmp cmpVersion :=
  LawfulCmp.of_eq
    (LawfulCmp.comp (cmpRel_lawful.precomp PyVersion.release)
      (LawfulCmp.comp (cmpPre_lawful.precomp PyVersion.pre)
        (cmpPost_lawful.precomp PyVersion.post)))
    (fun v w => rfl)

/-- `lt` results of a lawful comparator are asymmetric. -/
theorem LawfulCmp.asymm {α : Type} {cmp : α → α → Ordering}
    (h : LawfulCmp cmp) {a b : α} (hab : cmp a b = .lt) : cmp b a ≠ .lt := by
  intro hba
  have := h.lt_trans a b a hab hba
  rw [h.refl] at this
  exact absurd this (by simp)

/-- "Not below" is transitive for a lawful comparator. -/
theorem LawfulCmp.not_lt_trans {α : Type} {cmp : α → α → Ordering}
    (h : LawfulCmp cmp) {a b c : α}
    (hab : cmp a b ≠ .lt) (hbc : cmp b c ≠ .lt) : cmp a c ≠ .lt := by
  intro hac
  rcases hxm : cmp a b with _ | _ | _
  · exact hab hxm
  · rw [h.eq_left a b c hxm] at hac
    exact hbc hac
  · rw [h.gt_iff] at hxm
    exact hbc (h.lt_trans b a c hxm hac)

/-! ### Version parsing

Modelled from the spec: the tokenizer and grammar below stand in for
`packaging.version.parse`, which is third-party library code not part of
this repository.  The grammar follows §4.2 of the spec: a dotted numeric
release segment, an optional pre-release qualifier (`a`, `b` or `rc`
followed by a number, encoded as phase 0/1/2), and an optional `.post`
qualifier; any other shape is not a valid version string. -/

/-- Tokens of a version string: digit runs, letter runs, dots, and
anything else. -/
inductive VTok where
  | num (s : List Char)
  | alpha (s : List Char)
  | dot
  | bad
  deriving Repr, DecidableEq

/-- Group the characters of a version string into tokens. -/
def vtoks : List Char → List VTok
  | [] => []
  | c :: rest =>
    let ts := vtoks rest
    if c.isDigit then
      match ts with
      | .num s :: ts2 => .num (c :: s) :: ts2
      | _ => .num [c] :: ts
    else if c.isAlpha then
      match ts with
      | .alpha s :: ts2 => .alpha (c :: s) :: ts2
      | _ => .alpha [c] :: ts
    else if c = '.' then .dot :: ts
    else .bad :: ts

/-- Numeric value of a digit run. -/
def digitsVal (s : List Char) : Nat :=
  s.foldl (fun a c => a * 10 + (c.toNat - 48)) 0

/-- Parse the dotted release segments that follow a leading number. -/
def relToksAux (n : Nat) : List VTok → List Nat × List VTok
  | .dot :: .num t :: rest =>
    let (ns, r) := relToksAux (digitsVal t) rest
    (n :: ns, r)
  | ts => ([n], ts)

/-- Parse the leading dotted release segment out of a token stream. -/
def relToks : List VTok → List Nat × List VTok
  | .num s :: rest => relToksAux (digitsVal s) rest
  | ts => ([], ts)

/-- Parse an optional pre-release qualifier (`a`/`b`/`rc` + number). -/
def parsePre : List VTok → Option (Nat × Nat) × List VTok
  | .alpha s :: .num n :: rest =>
    if s = ['a'] then (some (0, digitsVal n), rest)
    else if s = ['b'] then (some (1, digitsVal n), rest)
    else if s = ['r', 'c'] then (some (2, digitsVal n), rest)
    else (none, .alpha s :: .num n :: rest)
  | ts => (none, ts)

/-- Parse an optional `.post` qualifier. -/
def parsePost : List VTok → Option Nat × List VTok
  | .dot :: .alpha s :: .num n :: rest =>
    if s = ['p', 'o', 's', 't'] then (some (digitsVal n), rest)
    else (none, .dot :: .alpha s :: .num n :: rest)
  | ts => (none, ts)

/-- Modelled from the spec: `packaging.version.parse` restricted to the
grammar §4.2 describes.  Returns `none` when the string is not a valid
version string. -/
def parseVersion (s : String) : Option PyVersion :=
  match relToks (vtoks s.data) with
  | (rel, ts) =>
    if rel.isEmpty then none
    else
      match parsePre ts with
      | (pre, ts2) =>
        match parsePost ts2 with
        | (post, ts3) =>
          if ts3.isEmpty then some ⟨rel, pre, post⟩ else none

/-! ### Candidates and the Resolver

Embedding of `PipInstaller.find` (installer.py lines 89-129).  The
network fetch and HTML run are handled further below; here we embed the
candidate loop over the extracted links, the emptiness check, and the
stable descending sort `sorted(candidates, key=lambda x: x.version,
reverse=True)[0]`. -/

/-- `Candidate = collections.namedtuple("Candidate", ["version", "url",
"filename"])`. -/
structure Candidate where
  version : PyVersion
  url : String
  filename : String
  deriving Repr, DecidableEq

/-- The exceptions the embedded installer can raise: `NoAcceptableFile`
(installer.py line 29), `requests.HTTPError` out of
`raise_for_status()`, `IndexError` out of `wheel_parts[1]`,
`packaging.version.InvalidVersion` out of `parse`, and
`subprocess.CalledProcessError` out of `check_call`. -/
inductive Err where
  | httpError
  | noAcceptableFile
  | indexError
  | invalidVersion
  | calledProcessError
  deriving Repr, DecidableEq

/-- Split a character list at every occurrence of a separator, like
Python's `str.split` with a one-character separator: `''` gives
`['']`, adjacent separators give empty groups. -/
def splitOnChar (sep : Char) (cs : List Char) : List (List Char) :=
  cs.foldr
    (fun c acc =>
      match acc with
      | [] => [[c]]
      | g :: gs => if c = sep then [] :: g :: gs else (c :: g) :: gs)
    [[]]

/-- Does the character list end with the given suffix? -/
def hasSuffixCL (cs suffix : List Char) : Bool :=
  cs.reverse.take suffix.length == suffix.reverse

/-- The path component of a URL, as `urllib.parse.urlparse(link).path`
produces it for ordinary http(s) URLs: everything before the first `#`
or `?`.  (The scheme-and-host part never matters here, because the code
only takes the final `/`-separated segment.) -/
def urlPathPart (link : String) : List Char :=
  (splitOnChar '?' ((splitOnChar '#' link.data).headD [])).headD []

/-- `posixpath.basename(urllib.parse.urlparse(link).path)` — the final
`/`-separated segment of the URL's path. -/
def basenameOfUrl (link : String) : String :=
  ⟨(splitOnChar '/' (urlPathPart link)).getLastD []⟩

/-- The candidate-collection loop of `PipInstaller.find` (installer.py
lines 103-120): for each link take the basename, skip filenames that do
not end in `.whl`, split on `-`, index the second token (raising
`IndexError` when there is none) and parse it as a version (raising
`InvalidVersion` on failure, as `packaging.version.parse` does for an
unparseable string). -/
def candidatesOf : List String → Except Err (List Candidate)
  | [] => .ok []
  | link :: rest =>
    let filename := basenameOfUrl link
    if hasSuffixCL filename.data ".whl".data then
      match (splitOnChar '-' filename.data).get? 1 with
      | none => .error .indexError
      | some tok =>
        match parseVersion ⟨tok⟩ with
        | none => .error .invalidVersion
        | some v =>
          (candidatesOf rest).map (fun cs => ⟨v, link, filename⟩ :: cs)
    else
      candidatesOf rest

/-- One insertion step of the stable descending sort: a new element
moves past exactly the strictly-greater elements, so equal versions
keep their original relative order. -/
def insertDesc (c : Candidate) : List Candidate → List Candidate
  | [] => [c]
  | d :: ds =>
    if cmpVersion c.version d.version = .lt then d :: insertDesc c ds
    else c :: d :: ds

/-- `sorted(candidates, key=lambda x: x.version, reverse=True)`:
Python's sort is stable, also with `reverse=True`, so candidates with
equal versions stay in extraction order. -/
def sortDesc : List Candidate → List Candidate
  | [] => []
  | c :: cs => insertDesc c (sortDesc cs)

/-- `PipInstaller.find` from the extracted links onwards (installer.py
lines 103-129): collect candidates, raise `NoAcceptableFile` when there
are none, and return the head of the descending sort. -/
def findFromLinks (links : List String) : Except Err Candidate :=
  match candidatesOf links with
  | .error e => .error e
  | .ok cs =>
    match sortDesc cs with
    | [] => .error .noAcceptableFile
    | best :: _ => .ok best

theorem insertDesc_length (c : Candidate) (l : List Candidate) :
    (insertDesc c l).length = l.length + 1 := by
  induction l with
  | nil => rfl
  | cons d ds ih =>
    simp only [insertDesc]
    split <;> simp [ih]

theorem sortDesc_length (cs : List Candidate) :
    (sortDesc cs).length = cs.length := by
  induction cs with
  | nil => rfl
  | cons c cs ih => simp [sortDesc, insertDesc_length, ih]

/-- The head of the stable descending sort is the first-seen maximal
element: it is a maximum of the list, and every element before it in
the original order is strictly below it. -/
theorem sortDesc_head_first_max :
    ∀ (cs : List Candidate) (best : Candidate) (tl : List Candidate),
      sortDesc cs = best :: tl →
      ∃ pre post, cs = pre ++ best :: post ∧
        (∀ c ∈ cs, cmpVersion best.version c.version ≠ .lt) ∧
        (∀ c ∈ pre, cmpVersion c.version best.version = .lt) := by
  intro cs
  induction cs with
  | nil => intro best tl h; exact absurd h (by simp [sortDesc])
  | cons x cs ih =>
    intro best tl h
    rcases hs : sortDesc cs with _ | ⟨m, stl⟩
    · -- the tail sorts to [], so the tail is empty
      have hnil : cs = [] := by
        have := sortDesc_length cs
        rw [hs] at this
        simpa using (List.length_eq_zero.mp this.symm)
      subst hnil
      simp only [sortDesc, hs, insertDesc] at h
      obtain ⟨rfl, rfl⟩ : x = best ∧ ([] : List Candidate) = tl := by
        simpa using h
      refine ⟨[], [], by simp, ?_, by simp⟩
      intro c hc
      simp only [List.mem_singleton] at hc
      subst hc
      rw [cmpVersion_lawful.refl]
      simp
    · obtain ⟨pre, post, hdecomp, hmax, hpre⟩ := ih m stl hs
      simp only [sortDesc, hs, insertDesc] at h
      by_cases hlt : cmpVersion x.version m.version = .lt
      · rw [if_pos hlt] at h
        obtain ⟨rfl, -⟩ : m = best ∧ insertDesc x stl = tl := by
          simpa using h
        refine ⟨x :: pre, post, by simp [hdecomp], ?_, ?_⟩
        · intro c hc
          rcases List.mem_cons.mp hc with rfl | hc
          · exact cmpVersion_lawful.asymm hlt
          · exact hmax c hc
        · intro c hc
          rcases List.mem_cons.mp hc with rfl | hc
          · exact hlt
          · exact hpre c hc
      · rw [if_neg hlt] at h
        obtain ⟨rfl, -⟩ : x = best ∧ m :: stl = tl := by
          simpa using h
        refine ⟨[], cs, rfl, ?_, by simp⟩
        intro c hc
        rcases List.mem_cons.mp hc with rfl | hc
        · rw [cmpVersion_lawful.refl]; simp
        · exact cmpVersion_lawful.not_lt_trans hlt (hmax c hc)

deriving instance DecidableEq for Except

/-- `candidatesOf` can only fail with `IndexError` or `InvalidVersion`;
`NoAcceptableFile` is raised later, by the emptiness check. -/
theorem candidatesOf_ne_noAcceptableFile (links : List String) :
    candidatesOf links ≠ .error .noAcceptableFile := by
  induction links with
  | nil => simp [candidatesOf]
  | cons link rest ih =>
    simp only [candidatesOf]
    split
    · rcases hg : (splitOnChar '-' (basenameOfUrl link).data).get? 1 with _ | tok
      · simp [hg]
      · simp only [hg]
        rcases hp : parseVersion ⟨tok⟩ with _ | v
        · simp [hp]
        · simp only [hp]
          rcases hc : candidatesOf rest with e | cs
          · rw [hc] at ih
            simp only [Except.map]
            intro h
            injection h with h
            exact ih (by rw [h])
          · simp [Except.map]
    · exact ih

/-- `candidatesOf` returns the empty candidate list exactly when no
extracted link's filename ends in `.whl`. -/
theorem candidatesOf_ok_nil_iff (links : List String) :
    candidatesOf links = .ok [] ↔
      ∀ l ∈ links, hasSuffixCL (basenameOfUrl l).data ".whl".data = false := by
  induction links with
  | nil => simp [candidatesOf]
  | cons link rest ih =>
    simp only [candidatesOf]
    split <;> rename_i hsuf
    · rcases hg : (splitOnChar '-' (basenameOfUrl link).data).get? 1 with _ | tok
      · simp only [hg]
        simp [hsuf]
      · simp only [hg]
        rcases hp : parseVersion ⟨tok⟩ with _ | v
        · simp only [hp]
          simp [hsuf]
        · simp only [hp]
          rcases hc : candidatesOf rest with e | cs
          · simp only [hc, Except.map]
            simp [hsuf]
          · simp only [hc, Except.map]
            simp [hsuf]
    · simp only [ih, List.mem_cons]
      constructor
      · intro h l hl
        rcases hl with rfl | hl
        · simpa using hsuf
        · exact h l hl
      · intro h l hl
        exact h l (Or.inr hl)

/-- `find` raises `NoAcceptableFile` exactly when the candidate list is
empty, i.e. when no extracted link's filename ends in `.whl`. -/
theorem findFromLinks_noAcceptableFile_iff (links : List String) :
    findFromLinks links = .error .noAcceptableFile ↔
      ∀ l ∈ links, hasSuffixCL (basenameOfUrl l).data ".whl".data = false := by
  rw [← candidatesOf_ok_nil_iff]
  unfold findFromLinks
  rcases hc : candidatesOf links with e | cs
  · show ((Except.error e : Except Err Candidate) = Except.error Err.noAcceptableFile) ↔
      ((Except.error e : Except Err (List Candidate)) = Except.ok [])
    constructor
    · intro h
      injection h with h
      exact absurd (hc.trans (by rw [h])) (candidatesOf_ne_noAcceptableFile links)
    · intro h
      injection h
  · show ((match sortDesc cs with
        | [] => Except.error Err.noAcceptableFile
        | best :: _ => Except.ok best) = Except.error Err.noAcceptableFile) ↔
      ((Except.ok cs : Except Err (List Candidate)) = Except.ok [])
    rcases hs : sortDesc cs with _ | ⟨b, tl⟩
    · have hcs : cs = [] := by
        have hl := sortDesc_length cs
        rw [hs] at hl
        exact List.length_eq_zero.mp hl.symm
      subst hcs
      show (Except.error Err.noAcceptableFile = Except.error Err.noAcceptableFile) ↔
        (Except.ok ([] : List Candidate) = Except.ok [])
      simp
    · have hne : cs ≠ [] := by
        intro h
        rw [h] at hs
        simp [sortDesc] at hs
      show (Except.ok b = Except.error Err.noAcceptableFile) ↔
        (Except.ok cs = Except.ok ([] : List Candidate))
      constructor
      · intro h; injection h
      · intro h
        injection h with h
        exact absurd h hne

/-! ### Link Extractor

Embedding of `LinkExtractor` (installer.py lines 38-67).  The stdlib
`html.parser.HTMLParser` tokenizer is an external collaborator: it
drives `handle_starttag` once per start tag, in document order, passing
the tag name and the attribute list.  A document is therefore embedded
as the list of its start-tag events, and `urllib.parse.urljoin` is a
function parameter. -/

/-- One `handle_starttag` callback: a tag name and its attributes. -/
structure TagEvent where
  name : String
  attrs : List (String × String)
  deriving Repr, DecidableEq

/-- `LinkExtractor.handle_starttag` (installer.py lines 47-67): ignore
non-anchor tags and attribute-less tags, require some `rel="internal"`
attribute (the `for`/`break`/`else` loop), then append
`urljoin(base_url, value)` for every `href` attribute, in order. -/
def handleStarttag (urljoin : String → String → String) (baseUrl : String)
    (ev : TagEvent) : List String :=
  if ev.name ≠ "a" then []
  else if ev.attrs.isEmpty then []
  else if ev.attrs.any (fun av => av.1 = "rel" && av.2 = "internal") then
    ev.attrs.filterMap
      (fun av => if av.1 = "href" then some (urljoin baseUrl av.2) else none)
  else []

/-- The full extractor run: `parser.feed(resp.text)` fires
`handle_starttag` per start tag in document order, each appending to
`self.links`. -/
def extractLinks (urljoin : String → String → String) (baseUrl : String)
    (events : List TagEvent) : List String :=
  events.flatMap (handleStarttag urljoin baseUrl)

/-- The Link Extractor output as the spec words it: exactly the `href`
attribute values of anchor elements carrying a `rel` attribute whose
value is `"internal"`, each resolved against the base URL, in document
order; all other elements contribute nothing. -/
def extractLinksSpec (urljoin : String → String → String) (baseUrl : String)
    (events : List TagEvent) : List String :=
  events.flatMap (fun ev =>
    if ev.name = "a" ∧ ("rel", "internal") ∈ ev.attrs then
      (ev.attrs.filter (fun av => av.1 = "href")).map
        (fun av => urljoin baseUrl av.2)
    else [])

theorem filterMap_href (urljoin : String → String → String) (b : String)
    (attrs : List (String × String)) :
    attrs.filterMap
        (fun av => if av.1 = "href" then some (urljoin b av.2) else none) =
      (attrs.filter (fun av => av.1 = "href")).map
        (fun av => urljoin b av.2) := by
  induction attrs with
  | nil => rfl
  | cons av rest ih =>
    by_cases h : av.1 = "href"
    · simp [List.filterMap_cons, List.filter_cons, h, ih]
    · simp [List.filterMap_cons, List.filter_cons, h, ih]

theorem handleStarttag_eq_spec (urljoin : String → String → String)
    (b : String) (ev : TagEvent) :
    handleStarttag urljoin b ev =
      (if ev.name = "a" ∧ ("rel", "internal") ∈ ev.attrs then
        (ev.attrs.filter (fun av => av.1 = "href")).map
          (fun av => urljoin b av.2)
      else []) := by
  unfold handleStarttag
  by_cases hname : ev.name = "a"
  · by_cases hempty : ev.attrs.isEmpty
    · have h0 : ev.attrs = [] := List.isEmpty_iff.mp hempty
      simp [h0]
    · by_cases hrel : ("rel", "internal") ∈ ev.attrs
      · have hany : ev.attrs.any (fun av => av.1 = "rel" && av.2 = "internal") = true := by
          rw [List.any_eq_true]
          exact ⟨("rel", "internal"), hrel, by simp⟩
        simp [hname, hempty, hany, hrel, filterMap_href]
      · have hany : ev.attrs.any (fun av => av.1 = "rel" && av.2 = "internal") = false := by
          rw [List.any_eq_false]
          intro av hav
          simp only [Bool.and_eq_true, decide_eq_true_eq]
          rintro ⟨h1, h2⟩
          exact hrel (by
            have hx : av = ("rel", "internal") := Prod.ext h1 h2
            rw [← hx]; exact hav)
        simp [hname, hempty, hany, hrel]
  · simp [hname]

theorem extractLinks_eq_spec (urljoin : String → String → String)
    (baseUrl : String) (events : List TagEvent) :
    extractLinks urljoin baseUrl events =
      extractLinksSpec urljoin baseUrl events := by
  unfold extractLinks extractLinksSpec
  congr 1
  funext ev
  exact handleStarttag_eq_spec urljoin baseUrl ev

/-! ### Claim theorems for the Resolver and Link Extractor -/

/-- C1: whenever `Resolver.find` succeeds on the extracted links, the
returned candidate is one of the collected candidates, no candidate's
version is strictly above it, and every candidate extracted before it
is strictly below it — the stable descending sort returns the
first-seen maximal candidate, deterministically. -/
theorem find_returns_first_seen_maximal (links : List String)
    (best : Candidate) (h : findFromLinks links = .ok best) :
    ∃ cs pre post, candidatesOf links = .ok cs ∧
      cs = pre ++ best :: post ∧
      (∀ c ∈ cs, cmpVersion best.version c.version ≠ .lt) ∧
      (∀ c ∈ pre, cmpVersion c.version best.version = .lt) := by
  unfold findFromLinks at h
  split at h
  · exact absurd h (by simp)
  · rename_i cs hc
    split at h
    · exact absurd h (by simp)
    · rename_i b tl hs
      injection h with h
      subst h
      obtain ⟨pre, post, hdec, hmax, hpre⟩ := sortDesc_head_first_max cs b tl hs
      exact ⟨cs, pre, post, hc, hdec, hmax, hpre⟩

/-- Witness for C1, at the spec's own example: of
`pkg-1.0.0`, `pkg-2.0.0` and `pkg-1.5.0rc1` wheels, the `2.0.0` wheel
is selected, and the selection satisfies the first-seen-maximal
characterization. -/
theorem find_returns_first_seen_maximal_witness :
    findFromLinks
        ["https://x/pkg-1.0.0-py3-none-any.whl",
          "https://x/pkg-2.0.0-py3-none-any.whl",
          "https://x/pkg-1.5.0rc1-py3-none-any.whl"] =
      .ok ⟨⟨[2, 0, 0], none, none⟩, "https://x/pkg-2.0.0-py3-none-any.whl",
        "pkg-2.0.0-py3-none-any.whl"⟩ ∧
    (∃ cs pre post,
      candidatesOf
          ["https://x/pkg-1.0.0-py3-none-any.whl",
            "https://x/pkg-2.0.0-py3-none-any.whl",
            "https://x/pkg-1.5.0rc1-py3-none-any.whl"] = .ok cs ∧
      cs = pre ++
        (⟨⟨[2, 0, 0], none, none⟩, "https://x/pkg-2.0.0-py3-none-any.whl",
          "pkg-2.0.0-py3-none-any.whl"⟩ : Candidate) :: post ∧
      (∀ c ∈ cs,
        cmpVersion (⟨[2, 0, 0], none, none⟩ : PyVersion) c.version ≠ .lt) ∧
      (∀ c ∈ pre,
        cmpVersion c.version (⟨[2, 0, 0], none, none⟩ : PyVersion) = .lt)) :=
  ⟨rfl, find_returns_first_seen_maximal _ _ rfl⟩

/-- Eligibility exactly as C2 words it: the filename ends in `.whl`
and the second hyphen-delimited token parses as a valid version
string. -/
def eligibleSpec (link : String) : Bool :=
  hasSuffixCL (basenameOfUrl link).data ".whl".data &&
    (match (splitOnChar '-' (basenameOfUrl link).data).get? 1 with
      | none => false
      | some tok => (parseVersion ⟨tok⟩).isSome)

/-- C2 counterexample: a page whose only link is a `.whl` file with an
unparseable version token has zero eligible candidates in C2's sense,
yet `find` does not fail with `NoAcceptableFile` — the parse failure
propagates instead. -/
theorem find_noAcceptableFile_counterexample :
    (["https://x/pip-notaversion-py3.whl"].filter eligibleSpec) = [] ∧
    findFromLinks ["https://x/pip-notaversion-py3.whl"] =
      .error .invalidVersion ∧
    findFromLinks ["https://x/pip-notaversion-py3.whl"] ≠
      .error .noAcceptableFile := by
  refine ⟨rfl, rfl, ?_⟩
  decide

/-- C2 (amended): `find` fails with `NoAcceptableFile` exactly when no
extracted link's filename ends in `.whl`; a `.whl` link whose version
token does not parse makes `find` fail with the version-parse error
instead (and a hyphen-less `.whl` filename with an index error), so
those cases never reach the `NoAcceptableFile` check. -/
theorem find_noAcceptableFile_characterization (links : List String) :
    findFromLinks links = .error .noAcceptableFile ↔
      ∀ l ∈ links, hasSuffixCL (basenameOfUrl l).data ".whl".data = false :=
  findFromLinks_noAcceptableFile_iff links

/-- Witness for the amended C2: a page with no `.whl` link at all fails
with `NoAcceptableFile`. -/
theorem find_noAcceptableFile_characterization_witness :
    findFromLinks ["https://x/readme.txt", "https://x/pip-1.0.tar.gz"] =
      .error .noAcceptableFile :=
  (find_noAcceptableFile_characterization
    ["https://x/readme.txt", "https://x/pip-1.0.tar.gz"]).mpr (by decide)

/-- C3: the Link Extractor's output is exactly the `href` attribute
values of anchor elements carrying a `rel="internal"` attribute, each
resolved against the base URL by the URL joiner, in document order;
anchors lacking `rel="internal"`, lacking attributes entirely, or
lacking `href` contribute nothing. -/
theorem extractLinks_exactly_internal_hrefs
    (urljoin : String → String → String) (baseUrl : String)
    (events : List TagEvent) :
    extractLinks urljoin baseUrl events =
      extractLinksSpec urljoin baseUrl events :=
  extractLinks_eq_spec urljoin baseUrl events

/-- C9: on a page whose links include a `.whl` file without any hyphen
in its name, `find` raises the unhandled `IndexError` from
`wheel_parts[1]` — it neither skips the file (the other, well-formed
wheel is not returned) nor reports `NoAcceptableFile`. -/
theorem find_hyphenless_wheel_raises_indexError :
    findFromLinks
        ["https://x/pkg-1.0.0-py3-none-any.whl", "https://x/pip.whl"] =
      .error .indexError := rfl

/-! ### SHA-256

Embeds `hashlib.sha256(candidate.url.encode("utf8")).hexdigest()` from
`PipInstaller.download` (installer.py line 133): UTF-8 encoding of the
URL, the FIPS 180-4 SHA-256 digest over the byte list, and lowercase
hex formatting.  All arithmetic is on `Nat` with explicit reduction
modulo `2^32`. -/

/-- UTF-8 encoding of one character (`str.encode("utf8")`). -/
def utf8Bytes (c : Char) : List Nat :=
  let n := c.toNat
  if n < 128 then [n]
  else if n < 2048 then [192 + n / 64, 128 + n % 64]
  else if n < 65536 then [224 + n / 4096, 128 + n / 64 % 64, 128 + n % 64]
  else [240 + n / 262144, 128 + n / 4096 % 64, 128 + n / 64 % 64, 128 + n % 64]

/-- UTF-8 encoding of a string as a byte list. -/
def utf8Encode (s : String) : List Nat :=
  s.data.flatMap utf8Bytes

/-- Truncate to a 32-bit word. -/
def w32 (n : Nat) : Nat := n % 4294967296

/-- 32-bit right rotation. -/
def rotr32 (k x : Nat) : Nat := w32 ((x >>> k) ||| (x <<< (32 - k)))

/-- The SHA-256 round constants. -/
def shaK : List Nat :=
  [1116352408, 1899447441, 3049323471, 3921009573,
   961987163, 1508970993, 2453635748, 2870763221,
   3624381080, 310598401, 607225278, 1426881987,
   1925078388, 2162078206, 2614888103, 3248222580,
   3835390401, 4022224774, 264347078, 604807628,
   770255983, 1249150122, 1555081692, 1996064986,
   2554220882, 2821834349, 2952996808, 3210313671,
   3336571891, 3584528711, 113926993, 338241895,
   666307205, 773529912, 1294757372, 1396182291,
   1695183700, 1986661051, 2177026350, 2456956037,
   2730485921, 2820302411, 3259730800, 3345764771,
   3516065817, 3600352804, 4094571909, 275423344,
   430227734, 506948616, 659060556, 883997877,
   958139571, 1322822218, 1537002063, 1747873779,
   1955562222, 2024104815, 2227730452, 2361852424,
   2428436474, 2756734187, 3204031479, 3329325298]

/-- The SHA-256 initial hash value. -/
def shaH0 : List Nat :=
  [1779033703, 3144134277, 1013904242, 2773480762,
   1359893119, 2600822924, 528734635, 1541459225]

/-- Big-endian 8-byte encoding of a length. -/
def be64 (n : Nat) : List Nat :=
  [(n >>> 56) % 256, (n >>> 48) % 256, (n >>> 40) % 256, (n >>> 32) % 256,
   (n >>> 24) % 256, (n >>> 16) % 256, (n >>> 8) % 256, n % 256]

/-- SHA-256 padding: a `0x80` byte, zeros to 56 mod 64, then the
bit length. -/
def padMsg (m : List Nat) : List Nat :=
  let L := m.length
  let k := (120 - ((L + 1) % 64)) % 64
  m ++ 128 :: (List.replicate k 0 ++ be64 (8 * L))

/-- Pack bytes into big-endian 32-bit words. -/
def wordsOf : List Nat → List Nat
  | a :: b :: c :: d :: rest =>
    (a * 16777216 + b * 65536 + c * 256 + d) :: wordsOf rest
  | _ => []

/-- One step of the message-schedule extension. -/
def schedStep (w : List Nat) : Nat :=
  let n := w.length
  let x15 := w.getD (n - 15) 0
  let x2 := w.getD (n - 2) 0
  let x16 := w.getD (n - 16) 0
  let x7 := w.getD (n - 7) 0
  let s0 := (rotr32 7 x15) ^^^ (rotr32 18 x15) ^^^ (x15 >>> 3)
  let s1 := (rotr32 17 x2) ^^^ (rotr32 19 x2) ^^^ (x2 >>> 10)
  w32 (x16 + s0 + x7 + s1)

/-- Extend a 16-word block to the 64-word message schedule. -/
def extendSched : List Nat → Nat → List Nat
  | w, 0 => w
  | w, n + 1 => extendSched (w ++ [schedStep w]) n

/-- One SHA-256 compression round on the eight-word state. -/
def roundStep (st : List Nat) (kw : Nat × Nat) : List Nat :=
  match st with
  | [a, b, c, d, e, f, g, h] =>
    let s1 := (rotr32 6 e) ^^^ (rotr32 11 e) ^^^ (rotr32 25 e)
    let ch := (e &&& f) ^^^ ((e ^^^ 4294967295) &&& g)
    let t1 := w32 (h + s1 + ch + kw.1 + kw.2)
    let s0 := (rotr32 2 a) ^^^ (rotr32 13 a) ^^^ (rotr32 22 a)
    let mj := (a &&& b) ^^^ (a &&& c) ^^^ (b &&& c)
    let t2 := w32 (s0 + mj)
    [w32 (t1 + t2), a, b, c, w32 (d + t1), e, f, g]
  | other => other

/-- Compress one 16-word block into the hash state. -/
def sha256Compress (h : List Nat) (block : List Nat) : List Nat :=
  let w := extendSched block 48
  let st := (shaK.zip w).foldl roundStep h
  (h.zip st).map (fun p => w32 (p.1 + p.2))

/-- Fold the compression over the 16-word blocks of the padded
message. -/
def sha256Blocks (h : List Nat) : List Nat → List Nat
  | w0 :: w1 :: w2 :: w3 :: w4 :: w5 :: w6 :: w7 ::
      w8 :: w9 :: w10 :: w11 :: w12 :: w13 :: w14 :: w15 :: rest =>
    sha256Blocks
      (sha256Compress h
        [w0, w1, w2, w3, w4, w5, w6, w7, w8, w9, w10, w11, w12, w13, w14, w15])
      rest
  | _ => h

/-- SHA-256 digest of a byte list, as bytes. -/
def sha256 (msg : List Nat) : List Nat :=
  let hs := sha256Blocks shaH0 (wordsOf (padMsg msg))
  hs.flatMap (fun w => [(w >>> 24) % 256, (w >>> 16) % 256, (w >>> 8) % 256, w % 256])

/-- A lowercase hex digit. -/
def hexChar (n : Nat) : Char :=
  if n < 10 then Char.ofNat (48 + n) else Char.ofNat (87 + n)

/-- `hashlib.sha256(s.encode("utf8")).hexdigest()`. -/
def sha256hex (s : String) : String :=
  ⟨(sha256 (utf8Encode s)).flatMap (fun b => [hexChar (b / 16), hexChar (b % 16)])⟩

/-! ### Cache Store

Embedding of `PipInstaller.download` (installer.py lines 131-151).  The
file system, the effect log and the session flag form an explicit
`World`; the network is a collaborator function returning `some body`
for a 2xx response and `none` when `raise_for_status()` would raise. -/

/-- Observable side effects of the installer. -/
inductive Event where
  | get (url : String)
  | mkdir (path : String)
  | fileWrite (path : String) (content : String)
  | exec (cmd : List String) (env : List (String × String))
  deriving Repr, DecidableEq

/-- The state threaded through the installer: files with their
contents, directories, the effect log, and whether the requests
session is open. -/
structure World where
  files : List (String × String)
  dirs : List String
  log : List Event
  sessionOpen : Bool
  deriving Repr, DecidableEq

/-- `os.path.exists`: true for files and for directories. -/
def pathExists (w : World) (p : String) : Bool :=
  w.files.any (fun f => f.1 = p) || w.dirs.contains p

/-- Contents of the file at `p`, if one exists. -/
def readFile (w : World) (p : String) : Option String :=
  (w.files.find? (fun f => f.1 = p)).map (fun f => f.2)

/-- `self.session.get(url)`: logs the request and asks the network
collaborator; `none` models a non-2xx response. -/
def doGet (net : String → Option String) (url : String) (w : World) :
    World × Option String :=
  ({ w with log := w.log ++ [.get url] }, net url)

/-- `os.path.join` with the POSIX separator. -/
def pjoin (a b : String) : String := a ++ "/" ++ b

/-- `os.path.dirname`: everything before the last `/`. -/
def dirname (p : String) : String :=
  ⟨List.intercalate ['/'] ((splitOnChar '/' p.data).dropLast)⟩

/-- Is an event a network GET? -/
def isGet : Event → Bool
  | .get _ => true
  | _ => false

/-- Is an event a process invocation? -/
def isExec : Event → Bool
  | .exec _ _ => true
  | _ => false

/-- `PipInstaller.download` (installer.py lines 131-151): hash the URL
into a cache key, return the cache path untouched when something exists
there, otherwise GET the URL (failing on non-2xx), create the cache
directory if missing, write the body, and return the path. -/
def download (net : String → Option String) (cacheDir : String)
    (w : World) (c : Candidate) : World × Except Err String :=
  let hashed := sha256hex c.url
  let cachePath := pjoin (pjoin cacheDir hashed) c.filename
  if pathExists w cachePath then (w, .ok cachePath)
  else
    match doGet net c.url w with
    | (w1, none) => (w1, .error .httpError)
    | (w1, some body) =>
      let w2 :=
        if pathExists w1 (dirname cachePath) then w1
        else { w1 with dirs := dirname cachePath :: w1.dirs,
                       log := w1.log ++ [.mkdir (dirname cachePath)] }
      let w3 := { w2 with files := (cachePath, body) :: w2.files,
                          log := w2.log ++ [.fileWrite cachePath body] }
      (w3, .ok cachePath)

theorem download_ok_path (net : String → Option String) (root : String)
    (w : World) (c : Candidate) (p : String)
    (h : (download net root w c).2 = .ok p) :
    p = pjoin (pjoin root (sha256hex c.url)) c.filename := by
  unfold download at h
  by_cases hex : pathExists w (pjoin (pjoin root (sha256hex c.url)) c.filename) = true
  · rw [if_pos hex] at h
    simp at h
    exact h.symm
  · rw [if_neg hex] at h
    simp only [doGet] at h
    rcases hnet : net c.url with _ | body <;> rw [hnet] at h
    · simp at h
    · simp at h
      exact h.symm

/-- C6: on a cache miss, a non-2xx response makes `download` fail with
the fetch error, and the cache state is untouched: the files and
directories are exactly those of the initial world, no directory is
created and nothing is written — only the failed GET is logged. -/
theorem download_http_error_leaves_cache_unchanged
    (net : String → Option String) (root : String) (w : World) (c : Candidate)
    (hmiss : pathExists w (pjoin (pjoin root (sha256hex c.url)) c.filename) = false)
    (hnet : net c.url = none) :
    download net root w c =
      ({ w with log := w.log ++ [.get c.url] }, .error .httpError) := by
  simp [download, doGet, hmiss, hnet]

/-- C5: whenever `download` returns a path, that path is
`{cache_root}/{hex(sha256(utf8(url)))}/{filename}`; in particular two
runs for the same candidate under different cache roots return paths
with the same `{key}/{filename}` relative part under their respective
roots, so the caches are isolated but keyed identically. -/
theorem download_cache_key_deterministic
    (net1 net2 : String → Option String) (root1 root2 : String)
    (w1 w2 : World) (c : Candidate) (p1 p2 : String)
    (h1 : (download net1 root1 w1 c).2 = .ok p1)
    (h2 : (download net2 root2 w2 c).2 = .ok p2) :
    p1 = pjoin (pjoin root1 (sha256hex c.url)) c.filename ∧
    p2 = pjoin (pjoin root2 (sha256hex c.url)) c.filename :=
  ⟨download_ok_path net1 root1 w1 c p1 h1,
    download_ok_path net2 root2 w2 c p2 h2⟩


/-- The world produced by the cache-miss branch of `download` (the
`else` arm of installer.py lines 138-149, factored out so the branch
can be named in lemmas): log the GET, create the cache directory if
missing, then write the body to the cache path. -/
def missResult (w : World) (url D P body : String) : World :=
  let g : World := { w with log := w.log ++ [Event.get url] }
  let w2 : World :=
    if pathExists g D = true then g
    else { g with dirs := D :: g.dirs, log := g.log ++ [Event.mkdir D] }
  { w2 with files := (P, body) :: w2.files,
            log := w2.log ++ [Event.fileWrite P body] }

theorem download_hit_eq (net : String → Option String) (root : String)
    (w : World) (c : Candidate)
    (hex : pathExists w (pjoin (pjoin root (sha256hex c.url)) c.filename) = true) :
    download net root w c =
      (w, .ok (pjoin (pjoin root (sha256hex c.url)) c.filename)) := by
  unfold download
  rw [if_pos hex]

theorem download_miss_eq (net : String → Option String) (root : String)
    (w : World) (c : Candidate) (body : String)
    (hmiss : pathExists w (pjoin (pjoin root (sha256hex c.url)) c.filename) = false)
    (hnet : net c.url = some body) :
    download net root w c =
      (missResult w c.url
          (dirname (pjoin (pjoin root (sha256hex c.url)) c.filename))
          (pjoin (pjoin root (sha256hex c.url)) c.filename) body,
        .ok (pjoin (pjoin root (sha256hex c.url)) c.filename)) := by
  unfold download missResult
  rw [if_neg (by rw [hmiss]; exact Bool.false_ne_true)]
  simp only [doGet]
  rw [hnet]

theorem missResult_files (w : World) (url D P body : String) :
    (missResult w url D P body).files = (P, body) :: w.files := by
  unfold missResult
  dsimp only
  split <;> rfl

theorem missResult_countGets (w : World) (url D P body : String) :
    (missResult w url D P body).log.countP isGet = w.log.countP isGet + 1 := by
  unfold missResult
  dsimp only
  split <;> simp [List.countP_append, List.countP_cons, isGet]

theorem readFile_head (w : World) (P body : String)
    (rest : List (String × String)) (hf : w.files = (P, body) :: rest) :
    readFile w P = some body := by
  unfold readFile
  rw [hf]
  rw [List.find?_cons_of_pos _ (by simp)]
  rfl

/-- C4: when a cache-miss `download` succeeds, calling `download` again
with the same candidate is a pure cache hit: the world comes back
unchanged (so no GET, no directory creation and no file write happen
on the second call) with the same path, the file at that path holds
the first response's body, and across both calls exactly one GET was
issued. -/
theorem download_second_call_is_cache_hit
    (net : String → Option String) (root : String) (w w1 : World)
    (c : Candidate) (body : String) (p : String)
    (hmiss : pathExists w (pjoin (pjoin root (sha256hex c.url)) c.filename) = false)
    (hnet : net c.url = some body)
    (h : download net root w c = (w1, .ok p)) :
    download net root w1 c = (w1, .ok p) ∧
    readFile w1 p = some body ∧
    w1.log.countP isGet = w.log.countP isGet + 1 := by
  have heq := (download_miss_eq net root w c body hmiss hnet).symm.trans h
  injection heq with hw hp
  injection hp with hp
  subst hw
  subst hp
  have hfiles := missResult_files w c.url
    (dirname (pjoin (pjoin root (sha256hex c.url)) c.filename))
    (pjoin (pjoin root (sha256hex c.url)) c.filename) body
  have hread : readFile
      (missResult w c.url
        (dirname (pjoin (pjoin root (sha256hex c.url)) c.filename))
        (pjoin (pjoin root (sha256hex c.url)) c.filename) body)
      (pjoin (pjoin root (sha256hex c.url)) c.filename) = some body :=
    readFile_head _ _ _ _ hfiles
  refine ⟨?_, hread, missResult_countGets w c.url _ _ body⟩
  apply download_hit_eq
  unfold pathExists
  rw [hfiles]
  simp

/-- C7: when `download` returns normally (and no directory squats the
artifact path), the returned path is the deterministic cache path, a
file exists at it, and — when the call was a cache miss — that file
holds exactly the HTTP response body fetched from `candidate.url`. -/
theorem download_returns_existing_file
    (net : String → Option String) (root : String) (w w1 : World)
    (c : Candidate) (p : String)
    (hnodir : w.dirs.contains
      (pjoin (pjoin root (sha256hex c.url)) c.filename) = false)
    (h : download net root w c = (w1, .ok p)) :
    p = pjoin (pjoin root (sha256hex c.url)) c.filename ∧
    (∃ content, readFile w1 p = some content) ∧
    (pathExists w p = false →
      ∃ body, net c.url = some body ∧ readFile w1 p = some body) := by
  have hpath : p = pjoin (pjoin root (sha256hex c.url)) c.filename :=
    download_ok_path net root w c p (by rw [h])
  subst hpath
  by_cases hex : pathExists w (pjoin (pjoin root (sha256hex c.url)) c.filename) = true
  · have heq := (download_hit_eq net root w c hex).symm.trans h
    injection heq with hw hp
    subst hw
    refine ⟨rfl, ?_, ?_⟩
    · have hfile : w.files.any
          (fun f => f.1 = pjoin (pjoin root (sha256hex c.url)) c.filename) = true := by
        unfold pathExists at hex
        rcases Bool.or_eq_true_iff.mp hex with hf | hd
        · exact hf
        · rw [hnodir] at hd
          exact absurd hd Bool.false_ne_true
      have hsome : (w.files.find?
          (fun f => f.1 = pjoin (pjoin root (sha256hex c.url)) c.filename)).isSome := by
        rw [List.find?_isSome]
        obtain ⟨f, hmem, hf⟩ := List.any_eq_true.mp hfile
        exact ⟨f, hmem, hf⟩
      rcases hfind : w.files.find?
          (fun f => f.1 = pjoin (pjoin root (sha256hex c.url)) c.filename) with _ | g
      · rw [hfind] at hsome; simp at hsome
      · exact ⟨g.2, by unfold readFile; rw [hfind]; rfl⟩
    · intro hcontra
      rw [hex] at hcontra
      exact absurd hcontra.symm Bool.false_ne_true
  · have hmiss : pathExists w (pjoin (pjoin root (sha256hex c.url)) c.filename) = false :=
      Bool.not_eq_true _ ▸ (Bool.eq_false_iff.mpr hex)
    rcases hnet : net c.url with _ | body
    · have := download_ok_path net root w c _ (by rw [h])
      exfalso
      have herr := (download_http_error_leaves_cache_unchanged net root w c hmiss hnet).symm.trans h
      injection herr with hw hp
      injection hp
    · have heq := (download_miss_eq net root w c body hmiss hnet).symm.trans h
      injection heq with hw hp
      subst hw
      have hfiles := missResult_files w c.url
        (dirname (pjoin (pjoin root (sha256hex c.url)) c.filename))
        (pjoin (pjoin root (sha256hex c.url)) c.filename) body
      have hread : readFile
          (missResult w c.url
            (dirname (pjoin (pjoin root (sha256hex c.url)) c.filename))
            (pjoin (pjoin root (sha256hex c.url)) c.filename) body)
          (pjoin (pjoin root (sha256hex c.url)) c.filename) = some body :=
        readFile_head _ _ _ _ hfiles
      exact ⟨rfl, ⟨body, hread⟩, fun _ => ⟨body, rfl, hread⟩⟩

/-! ### Concrete fixtures for the cache-store witnesses -/

/-- A network serving one wheel. -/
def netW : String → Option String :=
  fun u =>
    if u = "https://x/pkg-2.0.0-py3-none-any.whl" then some "WHEELBYTES"
    else none

/-- A network on which every GET fails (non-2xx). -/
def netN : String → Option String := fun _ => none

/-- An empty initial world with an open session. -/
def w0 : World := ⟨[], [], [], true⟩

/-- The witness candidate. -/
def cW : Candidate :=
  ⟨⟨[2, 0, 0], none, none⟩, "https://x/pkg-2.0.0-py3-none-any.whl",
    "pkg-2.0.0-py3-none-any.whl"⟩

/-- `sha256hex cW.url`, precomputed. -/
def keyW : String :=
  "04e84669c4d79cc78e6ae21f1b65f6b4620bb774c8201f4bd266d877ec335611"

/-- The deterministic cache path of `cW` under `/cache`. -/
def pathW : String := pjoin (pjoin "/cache" keyW) "pkg-2.0.0-py3-none-any.whl"

/-- The world after the first (cache-miss) fetch of `cW`. -/
def w1W : World :=
  ⟨[(pathW, "WHEELBYTES")], [pjoin "/cache" keyW],
    [.get "https://x/pkg-2.0.0-py3-none-any.whl",
      .mkdir (pjoin "/cache" keyW),
      .fileWrite pathW "WHEELBYTES"], true⟩

/-- Witness for C4 at a concrete candidate, network and empty cache. -/
theorem download_second_call_is_cache_hit_witness :
    pathExists w0 (pjoin (pjoin "/cache" (sha256hex cW.url)) cW.filename) = false ∧
    netW cW.url = some "WHEELBYTES" ∧
    (download netW "/cache" w1W cW = (w1W, .ok pathW) ∧
      readFile w1W pathW = some "WHEELBYTES" ∧
      w1W.log.countP isGet = w0.log.countP isGet + 1) :=
  ⟨rfl, rfl,
    download_second_call_is_cache_hit netW "/cache" w0 w1W cW "WHEELBYTES" pathW
      rfl rfl rfl⟩

/-- Witness for C5: fetching the same candidate under the roots
`/cacheA` and `/cacheB` yields the same `{key}/{filename}` relative
path inside the two isolated roots. -/
theorem download_cache_key_deterministic_witness :
    (download netW "/cacheA" w0 cW).2 =
      .ok (pjoin (pjoin "/cacheA" keyW) "pkg-2.0.0-py3-none-any.whl") ∧
    (download netW "/cacheB" w0 cW).2 =
      .ok (pjoin (pjoin "/cacheB" keyW) "pkg-2.0.0-py3-none-any.whl") ∧
    (pjoin (pjoin "/cacheA" keyW) "pkg-2.0.0-py3-none-any.whl" =
        pjoin (pjoin "/cacheA" (sha256hex cW.url)) cW.filename ∧
      pjoin (pjoin "/cacheB" keyW) "pkg-2.0.0-py3-none-any.whl" =
        pjoin (pjoin "/cacheB" (sha256hex cW.url)) cW.filename) :=
  ⟨rfl, rfl,
    download_cache_key_deterministic netW netW "/cacheA" "/cacheB" w0 w0 cW
      (pjoin (pjoin "/cacheA" keyW) "pkg-2.0.0-py3-none-any.whl")
      (pjoin (pjoin "/cacheB" keyW) "pkg-2.0.0-py3-none-any.whl") rfl rfl⟩

/-- Witness for C6: a failing GET on an empty cache leaves files and
directories untouched and only logs the request. -/
theorem download_http_error_leaves_cache_unchanged_witness :
    pathExists w0 (pjoin (pjoin "/cache" (sha256hex cW.url)) cW.filename) = false ∧
    netN cW.url = none ∧
    download netN "/cache" w0 cW =
      ({ w0 with log := w0.log ++ [.get cW.url] }, .error .httpError) :=
  ⟨rfl, rfl,
    download_http_error_leaves_cache_unchanged netN "/cache" w0 cW rfl rfl⟩

/-- Witness for C7 at the concrete cache-miss fetch of `cW`. -/
theorem download_returns_existing_file_witness :
    w0.dirs.contains (pjoin (pjoin "/cache" (sha256hex cW.url)) cW.filename) = false ∧
    download netW "/cache" w0 cW = (w1W, .ok pathW) ∧
    (pathW = pjoin (pjoin "/cache" (sha256hex cW.url)) cW.filename ∧
      (∃ content, readFile w1W pathW = some content) ∧
      (pathExists w0 pathW = false →
        ∃ body, netW cW.url = some body ∧ readFile w1W pathW = some body)) :=
  ⟨rfl, rfl,
    download_returns_existing_file netW "/cache" w0 w1W cW pathW rfl rfl⟩

/-! ### Resolver fetch and Installer Driver

Embedding of `PipInstaller.find` end to end (installer.py lines 89-99
plus the candidate loop) and of `PipInstaller.install` (lines 153-173).
The HTML tokenizer of `html.parser` and `urllib.parse.urljoin` are
collaborator functions; the process runner is a collaborator returning
the exit code of the invoked command. -/

/-- `PipInstaller.find` (installer.py lines 89-129): join the index URL
with `pip/`, GET it (failing on non-2xx through `raise_for_status`),
run the Link Extractor over the page, and resolve the candidate from
the extracted links. -/
def find (net : String → Option String) (tokenize : String → List TagEvent)
    (urljoin : String → String → String) (indexUrl : String) (w : World) :
    World × Except Err Candidate :=
  let simple := urljoin indexUrl "pip/"
  match doGet net simple w with
  | (w1, none) => (w1, .error .httpError)
  | (w1, some text) =>
    (w1, findFromLinks (extractLinks urljoin simple (tokenize text)))

/-- The bootstrap command
`"import pip; pip.main(['install', '{0}'])".format(filename)`
(installer.py line 169). -/
def pipCmd (filename : String) : String :=
  "import pip; pip.main([\x27install\x27, \x27" ++ filename ++ "\x27])"

/-- `PipInstaller.install` (installer.py lines 153-173): find the
latest candidate, download it into the cache, then run
`{environment}/bin/python -c <bootstrap>` through
`subprocess.check_call` with `PYTHONPATH` set to the downloaded file;
`check_call` raises `CalledProcessError` on a non-zero exit. -/
def install (net : String → Option String) (tokenize : String → List TagEvent)
    (urljoin : String → String → String)
    (exitCode : List String → List (String × String) → Int)
    (cacheDir environment : String) (w : World) : World × Except Err Unit :=
  match find net tokenize urljoin "https://pypi.python.org/simple/" w with
  | (w1, .error e) => (w1, .error e)
  | (w1, .ok candidate) =>
    match download net cacheDir w1 candidate with
    | (w2, .error e) => (w2, .error e)
    | (w2, .ok filename) =>
      let cmd := [pjoin (pjoin environment "bin") "python", "-c", pipCmd filename]
      let env := [("PYTHONPATH", filename)]
      let w3 := { w2 with log := w2.log ++ [.exec cmd env] }
      if exitCode cmd env = 0 then (w3, .ok ())
      else (w3, .error .calledProcessError)

theorem find_countExec (net : String → Option String)
    (tokenize : String → List TagEvent) (urljoin : String → String → String)
    (indexUrl : String) (w : World) :
    ((find net tokenize urljoin indexUrl w).1).log.countP isExec =
      w.log.countP isExec := by
  unfold find doGet
  dsimp only
  rcases h : net (urljoin indexUrl "pip/") with _ | text <;>
    simp [List.countP_append, List.countP_cons, isExec]

theorem missResult_countExecs (w : World) (url D P body : String) :
    (missResult w url D P body).log.countP isExec = w.log.countP isExec := by
  unfold missResult
  dsimp only
  split <;> simp [List.countP_append, List.countP_cons, isExec]

theorem download_countExec (net : String → Option String) (root : String)
    (w : World) (c : Candidate) :
    ((download net root w c).1).log.countP isExec = w.log.countP isExec := by
  by_cases hex : pathExists w (pjoin (pjoin root (sha256hex c.url)) c.filename) = true
  · rw [download_hit_eq net root w c hex]
  · have hmiss : pathExists w (pjoin (pjoin root (sha256hex c.url)) c.filename) = false :=
      Bool.eq_false_iff.mpr hex
    rcases hnet : net c.url with _ | body
    · rw [download_http_error_leaves_cache_unchanged net root w c hmiss hnet]
      simp [List.countP_append, List.countP_cons, isExec]
    · rw [download_miss_eq net root w c body hmiss hnet]
      exact missResult_countExecs w c.url _ _ body

/-- C8: when the Resolver and the Cache Store both succeed, `install`
invokes the external process exactly once: the executable is
`{environment}/bin/python`, the cached file's path appears in the
command arguments (inside the `-c` bootstrap snippet) and in the
`PYTHONPATH` environment variable, the call succeeds iff the process
exits 0, and a non-zero exit surfaces as the fatal
`CalledProcessError` with no retry — the log still gains exactly one
exec event. -/
theorem install_invokes_installer_once
    (net : String → Option String) (tokenize : String → List TagEvent)
    (urljoin : String → String → String)
    (exitCode : List String → List (String × String) → Int)
    (cacheDir environment : String) (w w1 w2 : World)
    (c : Candidate) (filename : String)
    (hfind : find net tokenize urljoin "https://pypi.python.org/simple/" w =
      (w1, .ok c))
    (hdl : download net cacheDir w1 c = (w2, .ok filename)) :
    install net tokenize urljoin exitCode cacheDir environment w =
      ({ w2 with log := w2.log ++
          [Event.exec
            [pjoin (pjoin environment "bin") "python", "-c", pipCmd filename]
            [("PYTHONPATH", filename)]] },
        if exitCode
            [pjoin (pjoin environment "bin") "python", "-c", pipCmd filename]
            [("PYTHONPATH", filename)] = 0
        then .ok () else .error .calledProcessError) ∧
    ((install net tokenize urljoin exitCode cacheDir environment w).1).log.countP
        isExec =
      w.log.countP isExec + 1 := by
  have hw2 : w2.log.countP isExec = w.log.countP isExec := by
    have hd := download_countExec net cacheDir w1 c
    rw [hdl] at hd
    have hf := find_countExec net tokenize urljoin
      "https://pypi.python.org/simple/" w
    rw [hfind] at hf
    exact hd.trans hf
  have hinst : install net tokenize urljoin exitCode cacheDir environment w =
      ({ w2 with log := w2.log ++
          [Event.exec
            [pjoin (pjoin environment "bin") "python", "-c", pipCmd filename]
            [("PYTHONPATH", filename)]] },
        if exitCode
            [pjoin (pjoin environment "bin") "python", "-c", pipCmd filename]
            [("PYTHONPATH", filename)] = 0
        then .ok () else .error .calledProcessError) := by
    unfold install
    rw [hfind]
    dsimp only
    rw [hdl]
    dsimp only
    by_cases hexit : exitCode
        [pjoin (pjoin environment "bin") "python", "-c", pipCmd filename]
        [("PYTHONPATH", filename)] = 0
    · rw [if_pos hexit, if_pos hexit]
    · rw [if_neg hexit, if_neg hexit]
  refine ⟨hinst, ?_⟩
  rw [hinst]
  simp [List.countP_append, List.countP_cons, isExec, hw2]

/-- A URL joiner resolving the relative `pip/` segment and passing
absolute URLs through. -/
def urljoinW : String → String → String :=
  fun b r => if r = "pip/" then b ++ "pip/" else r

/-- A network serving the index page and the wheel. -/
def netI : String → Option String :=
  fun u =>
    if u = "https://pypi.python.org/simple/pip/" then some "INDEXPAGE"
    else if u = "https://x/pkg-2.0.0-py3-none-any.whl" then some "WHEELBYTES"
    else none

/-- A tokenizer producing one internal anchor for the index page. -/
def tokenizeW : String → List TagEvent :=
  fun t =>
    if t = "INDEXPAGE" then
      [⟨"a", [("rel", "internal"),
        ("href", "https://x/pkg-2.0.0-py3-none-any.whl")]⟩]
    else []

/-- A process runner whose command always exits 0. -/
def exit0 : List String → List (String × String) → Int := fun _ _ => 0

/-- The world after the index fetch. -/
def w1I : World := ⟨[], [], [.get "https://pypi.python.org/simple/pip/"], true⟩

/-- The world after the index fetch and the wheel fetch. -/
def w2I : World :=
  ⟨[(pathW, "WHEELBYTES")], [pjoin "/cache" keyW],
    [.get "https://pypi.python.org/simple/pip/",
      .get "https://x/pkg-2.0.0-py3-none-any.whl",
      .mkdir (pjoin "/cache" keyW),
      .fileWrite pathW "WHEELBYTES"], true⟩

/-- Witness for C8: the full concrete pipeline — one index page, one
wheel, a zero exit — invokes the installer process exactly once with
`/envs/test/bin/python` and the cached path in the arguments and in
`PYTHONPATH`. -/
theorem install_invokes_installer_once_witness :
    find netI tokenizeW urljoinW "https://pypi.python.org/simple/" w0 =
      (w1I, .ok cW) ∧
    download netI "/cache" w1I cW = (w2I, .ok pathW) ∧
    (install netI tokenizeW urljoinW exit0 "/cache" "/envs/test" w0 =
        ({ w2I with log := w2I.log ++
            [Event.exec
              [pjoin (pjoin "/envs/test" "bin") "python", "-c", pipCmd pathW]
              [("PYTHONPATH", pathW)]] },
          if exit0
              [pjoin (pjoin "/envs/test" "bin") "python", "-c", pipCmd pathW]
              [("PYTHONPATH", pathW)] = 0
          then .ok () else .error .calledProcessError) ∧
      ((install netI tokenizeW urljoinW exit0 "/cache" "/envs/test" w0).1).log.countP
          isExec =
        w0.log.countP isExec + 1) :=
  ⟨rfl, rfl,
    install_invokes_installer_once netI tokenizeW urljoinW exit0 "/cache"
      "/envs/test" w0 w1I w2I cW pathW rfl rfl⟩

/-! ### Session lifecycle

`PipInstaller.__init__` opens a requests session (installer.py line
78); `close` closes it (lines 86-87); `__exit__` calls `close`
(lines 83-84).  `pvr.cli.create` runs the installer inside a `with`
block (cli.py lines 62-63). -/

/-- `PipInstaller.close` (installer.py lines 86-87):
`self.session.close()`. -/
def close (w : World) : World := { w with sessionOpen := false }

/-- `PipInstaller.__exit__` (installer.py lines 83-84): delegates to
`close` whatever arguments it receives — also on exceptional exits. -/
def exitInstaller (w : World) : World := close w

/-- Modelled from the spec: the `with PipInstaller(...) as installer:
installer.install()` block of `pvr.cli.create` (cli.py lines 62-63).
Python's `with` statement is the missing language-level collaborator:
it guarantees `__exit__` runs on every exit path of the block, normal
or exceptional, which the spec words as "scoped acquisition with
guaranteed release on all exit paths, including error paths".
`__init__` opens the session, the block body is `installer.install()`,
and `__exit__` runs on whatever world the body produced, whether the
body returned or raised. -/
def createWithInstaller (net : String → Option String)
    (tokenize : String → List TagEvent) (urljoin : String → String → String)
    (exitCode : List String → List (String × String) → Int)
    (cacheDir environment : String) (w : World) : World × Except Err Unit :=
  let opened : World := { w with sessionOpen := true }
  match install net tokenize urljoin exitCode cacheDir environment opened with
  | (w1, r) => (exitInstaller w1, r)

/-- C10: whatever the network, tokenizer, process runner and initial
world — in particular whether `install()` returns normally or
propagates any of its errors — leaving the `with` block always runs
`__exit__`, which invokes `close()`, so the session is closed in the
final world. -/
theorem create_always_closes_session (net : String → Option String)
    (tokenize : String → List TagEvent) (urljoin : String → String → String)
    (exitCode : List String → List (String × String) → Int)
    (cacheDir environment : String) (w : World) :
    ((createWithInstaller net tokenize urljoin exitCode cacheDir environment
        w).1).sessionOpen = false := by
  unfold createWithInstaller exitInstaller close
  dsimp only
